import Mathlib

/-!
Shallow embedding of the `flume-overwrite` library (`src/lib.rs`).

The library wraps a flume bounded channel. An `OverwriteSender<T>` holds the
channel's `Sender<T>` together with an internal clone of the `Receiver<T>`
(`bounded_overwrite`, lib.rs 65-72). `send_overwrite` (lib.rs 143-165) and
`send_overwrite_async` (lib.rs 202-220) drain the head of the queue while the
occupancy is at least the capacity, then push the new value, returning the
drained values.

Embedding conventions:
* the channel's buffered contents are a `List α`, front = oldest;
* `cap : Option Nat` is the result of `Sender::capacity()` (`some c` for a
  channel made by `flume::bounded(c)`, `none` for an unbounded one);
* `sAlive : Bool` says whether any sender handle of the underlying channel is
  alive: flume's `try_recv` on an empty queue returns `Empty` when a sender is
  alive and `Disconnected` otherwise, and `recv_async` on an empty queue
  suspends when a sender is alive and resolves to `Err(Disconnected)` otherwise;
* `rAlive : Bool` says whether any receiver handle is alive: flume's
  `send`/`send_async` fail with `SendError(value)` exactly when no receiver
  handle remains;
* loops are fuel-indexed; a result of `none` means the call has not completed
  within the given number of loop steps (so `= none` for every fuel is
  divergence). Executions are sequential: no concurrent producer or consumer
  mutates the queue between the steps of one call, which is the setting of the
  spec's single-writer properties.
-/

variable {α : Type}

/-- Result of a `send_overwrite` / `send_overwrite_async` call:
`ok r` models `Ok(r)` where `r : Option (List α)` is the eviction report
(`None` = nothing evicted), and `err v` models `Err(SendError(v))` carrying
the undelivered value. -/
inductive SendResult (α : Type) where
  | ok : Option (List α) → SendResult α
  | err : α → SendResult α
deriving DecidableEq, Repr

/-- Outcome of the synchronous eviction loop (lib.rs 145-154):
`done q d` = the occupancy check failed, leaving queue `q` and drained list
`d`; `disc q d` = `try_recv` reported `Disconnected`, which makes the whole
call return `Err(SendError(value))`. -/
inductive EvictOutcome (α : Type) where
  | done : List α → List α → EvictOutcome α
  | disc : List α → List α → EvictOutcome α
deriving DecidableEq, Repr

/-- `evictReport drained` models
`if drained.is_empty() { None } else { Some(drained) }` (lib.rs 156-160). -/
def evictReport (d : List α) : Option (List α) :=
  if d.isEmpty then none else some d

/-- The eviction loop of `send_overwrite` (lib.rs 145-154):
`while self.sender.len() >= capacity`, `try_recv` pops the head when the
queue is non-empty; on an empty queue it yields `Empty` when a sender handle
is alive (the loop body does nothing and the condition is re-checked) and
`Disconnected` otherwise (the call aborts). Fuel-indexed; `none` = the loop
has not finished within `fuel` iterations. -/
def evictLoop (cap : Nat) (sAlive : Bool) : Nat → List α → List α → Option (EvictOutcome α)
  | 0, _, _ => none
  | fuel + 1, q, d =>
    if cap ≤ q.length then
      match q with
      | x :: xs => evictLoop cap sAlive fuel xs (d ++ [x])
      | [] =>
        if sAlive then evictLoop cap sAlive fuel [] d
        else some (.disc [] d)
    else some (.done q d)

/-- The bounded branch of `send_overwrite` (lib.rs 144-161): run the eviction
loop, then `self.sender.send(value)` — which pushes when a receiver handle is
alive and fails with `SendError(value)` otherwise — and wrap the drained list
with `evictReport`. A `Disconnected` from the loop aborts with
`Err(SendError(value))` without pushing. -/
def sendBounded (cap : Nat) (sAlive rAlive : Bool) (fuel : Nat) (q : List α) (v : α) :
    Option (SendResult α × List α) :=
  match evictLoop cap sAlive fuel q [] with
  | none => none
  | some (.done q1 d) =>
    some (if rAlive then (.ok (evictReport d), q1 ++ [v]) else (.err v, q1))
  | some (.disc q1 _) => some (.err v, q1)

/-- The unbounded branch of both send variants (lib.rs 162-164, 217-219):
no eviction check, just `send(value)` and report `Ok(None)`. -/
def sendUnbounded (rAlive : Bool) (q : List α) (v : α) : SendResult α × List α :=
  if rAlive then (.ok none, q ++ [v]) else (.err v, q)

/-- `OverwriteSender::send_overwrite` (lib.rs 143-165): branch on
`self.sender.capacity()`. -/
def send_overwrite (cap : Option Nat) (sAlive rAlive : Bool) (fuel : Nat)
    (q : List α) (v : α) : Option (SendResult α × List α) :=
  match cap with
  | some c => sendBounded c sAlive rAlive fuel q v
  | none => some (sendUnbounded rAlive q v)

/-- The eviction loop of `send_overwrite_async` (lib.rs 204-209):
`while self.sender.len() >= capacity`, `recv_async().await` pops the head
when the queue is non-empty; on an empty queue it suspends forever when a
sender handle is alive (no other task runs in the sequential setting, so the
call never completes: `none`) and resolves to `Err` otherwise, in which case
the `if let Ok(..)` body is skipped and the `while` condition is re-checked. -/
def evictLoopAsync (cap : Nat) (sAlive : Bool) : Nat → List α → List α → Option (List α × List α)
  | 0, _, _ => none
  | fuel + 1, q, d =>
    if cap ≤ q.length then
      match q with
      | x :: xs => evictLoopAsync cap sAlive fuel xs (d ++ [x])
      | [] =>
        if sAlive then none
        else evictLoopAsync cap sAlive fuel [] d
    else some (q, d)

/-- The bounded branch of `send_overwrite_async` (lib.rs 203-216): run the
suspending eviction loop, then `send_async(value).await`. -/
def sendBoundedAsync (cap : Nat) (sAlive rAlive : Bool) (fuel : Nat) (q : List α) (v : α) :
    Option (SendResult α × List α) :=
  match evictLoopAsync cap sAlive fuel q [] with
  | none => none
  | some (q1, d) =>
    some (if rAlive then (.ok (evictReport d), q1 ++ [v]) else (.err v, q1))

/-- `OverwriteSender::send_overwrite_async` (lib.rs 202-220). -/
def send_overwrite_async (cap : Option Nat) (sAlive rAlive : Bool) (fuel : Nat)
    (q : List α) (v : α) : Option (SendResult α × List α) :=
  match cap with
  | some c => sendBoundedAsync c sAlive rAlive fuel q v
  | none => some (sendUnbounded rAlive q v)

/-- `bounded_overwrite(cap)` (lib.rs 65-72) builds the channel with
`flume::bounded(cap)`; the capacity reported by the resulting sender's
`capacity()` query is therefore `Some(cap)`. This definition is that reported
capacity. -/
def bounded_overwrite (cap : Nat) : Option Nat := some cap

/-- Live handles of one channel: `extReceivers` counts the external consumer
handles (clones of the `Receiver` returned by `bounded_overwrite`), and
`senders` counts the live `OverwriteSender` clones. Each `OverwriteSender`
holds one flume `Sender` and one internal flume `Receiver` clone
(lib.rs 67-70), so the receiver side of the channel is alive whenever either
an external receiver or an `OverwriteSender` is alive. -/
structure Handles where
  extReceivers : Nat
  senders : Nat
deriving DecidableEq, Repr

/-- Whether any flume receiver handle is alive, as observed by
`Sender::send`: external receivers and the internal receiver clone held by
each `OverwriteSender` all count. -/
def receiverSideAlive (h : Handles) : Bool := decide (0 < h.extReceivers + h.senders)

/-- Whether any flume sender handle is alive, as observed by the internal
receiver's `try_recv` / `recv_async`. -/
def senderSideAlive (h : Handles) : Bool := decide (0 < h.senders)

/-- `send_overwrite` as invoked on a channel whose live handles are `h`:
the aliveness flags seen by the flume primitives are derived from `h`. -/
def send_overwrite_h (h : Handles) (cap : Option Nat) (fuel : Nat)
    (q : List α) (v : α) : Option (SendResult α × List α) :=
  send_overwrite cap (senderSideAlive h) (receiverSideAlive h) fuel q v

/-- A sequence of sequential `send_overwrite` calls on a connected channel
(sender and receiver sides alive, no concurrent consumer): threads the queue
through the calls and sums the lengths of the eviction reports. Each call is
given fuel `q.length + 2`, enough for its eviction loop when the occupancy
does not exceed the capacity. Returns `none` if any call fails or diverges. -/
def sendSeq (cap : Nat) : List α → List α → Option (List α × Nat)
  | q, [] => some (q, 0)
  | q, v :: vs =>
    match send_overwrite (some cap) true true (q.length + 2) q v with
    | some (SendResult.ok r, q1) =>
      match sendSeq cap q1 vs with
      | some (qf, n) => some (qf, (r.getD []).length + n)
      | _ => none
    | _ => none

/-- The claim that `send_overwrite_async` at capacity 0 with the sender side
disconnected never completes, at the concrete input: empty queue, value 7,
any fuel. Stated as a definition so that the refuting theorem is closed. -/
def sendAsyncDisconnectedNeverCompletes : Prop :=
  ∀ fuel : Nat, send_overwrite_async (some 0) false true fuel ([] : List Nat) 7 = none

/-! ## Helper lemmas about the eviction loops -/

theorem evictLoop_lt (cap : Nat) (sA : Bool) (fuel : Nat) (q d : List α)
    (hq : q.length < cap) (hf : 1 ≤ fuel) :
    evictLoop cap sA fuel q d = some (.done q d) := by
  cases fuel with
  | zero => omega
  | succ n => simp [evictLoop, Nat.not_le.mpr hq]

theorem evictLoop_pop (cap : Nat) (sA : Bool) (fuel : Nat) (x : α) (xs d : List α)
    (hq : (x :: xs).length = cap) (hf : 2 ≤ fuel) :
    evictLoop cap sA fuel (x :: xs) d = some (.done xs (d ++ [x])) := by
  cases fuel with
  | zero => omega
  | succ n =>
    have h1 : cap ≤ (x :: xs).length := le_of_eq hq.symm
    simp only [evictLoop, if_pos h1]
    exact evictLoop_lt cap sA n xs (d ++ [x]) (by simp at hq ⊢; omega) (by omega)

theorem evictLoop_done_spec (cap : Nat) (sA : Bool) :
    ∀ (fuel : Nat) (q d q1 d1 : List α),
      evictLoop cap sA fuel q d = some (.done q1 d1) →
      ∃ k, k ≤ q.length ∧ d1 = d ++ q.take k ∧ q1 = q.drop k := by
  intro fuel
  induction fuel with
  | zero => intro q d q1 d1 h; simp [evictLoop] at h
  | succ n ih =>
    intro q d q1 d1 h
    by_cases hc : cap ≤ q.length
    · cases q with
      | nil =>
        have hc0 : cap = 0 := Nat.le_zero.mp (by simpa using hc)
        subst hc0
        cases sA with
        | false => simp [evictLoop] at h
        | true =>
          simp only [evictLoop, Nat.le_refl, if_pos, List.length_nil, if_true] at h
          obtain ⟨k, hk, hd, hq⟩ := ih [] d q1 d1 h
          exact ⟨0, by simp, by simpa using hd, by simpa using hq⟩
      | cons x xs =>
        simp only [evictLoop, if_pos hc] at h
        obtain ⟨k, hk, hd, hq⟩ := ih xs (d ++ [x]) q1 d1 h
        refine ⟨k + 1, by simp; omega, ?_, ?_⟩
        · simpa [List.append_assoc] using hd
        · simpa using hq
    · simp only [evictLoop, if_neg hc] at h
      obtain ⟨rfl, rfl⟩ : q = q1 ∧ d = d1 := by
        cases h; exact ⟨rfl, rfl⟩
      exact ⟨0, by simp, by simp, by simp⟩

theorem evictLoop_disc_nil (cap : Nat) (sA : Bool) :
    ∀ (fuel : Nat) (q d q1 d1 : List α),
      evictLoop cap sA fuel q d = some (.disc q1 d1) → q1 = [] := by
  intro fuel
  induction fuel with
  | zero => intro q d q1 d1 h; simp [evictLoop] at h
  | succ n ih =>
    intro q d q1 d1 h
    by_cases hc : cap ≤ q.length
    · cases q with
      | nil =>
        cases sA with
        | false =>
          simp only [evictLoop, if_pos hc, Bool.false_eq_true, if_false] at h
          cases h; rfl
        | true =>
          simp only [evictLoop, if_pos hc, if_pos rfl] at h
          exact ih [] d q1 d1 h
      | cons x xs =>
        simp only [evictLoop, if_pos hc] at h
        exact ih xs (d ++ [x]) q1 d1 h
    · simp only [evictLoop, if_neg hc] at h
      cases h

theorem evictLoop_zero_alive (fuel : Nat) :
    ∀ (d : List α), evictLoop 0 true fuel ([] : List α) d = none := by
  induction fuel with
  | zero => intro d; simp [evictLoop]
  | succ n ih => intro d; simpa [evictLoop] using ih d

theorem evictLoopAsync_zero_dead (fuel : Nat) :
    ∀ (q d : List α), evictLoopAsync 0 false fuel q d = none := by
  induction fuel with
  | zero => intro q d; simp [evictLoopAsync]
  | succ n ih =>
    intro q d
    cases q with
    | nil => simpa [evictLoopAsync] using ih [] d
    | cons x xs => simpa [evictLoopAsync] using ih xs (d ++ [x])

theorem evictLoopAsync_lt (cap : Nat) (sA : Bool) (fuel : Nat) (q d : List α)
    (hq : q.length < cap) (hf : 1 ≤ fuel) :
    evictLoopAsync cap sA fuel q d = some (q, d) := by
  cases fuel with
  | zero => omega
  | succ n => simp [evictLoopAsync, Nat.not_le.mpr hq]

theorem evictLoopAsync_pop (cap : Nat) (sA : Bool) (fuel : Nat) (x : α) (xs d : List α)
    (hq : (x :: xs).length = cap) (hf : 2 ≤ fuel) :
    evictLoopAsync cap sA fuel (x :: xs) d = some (xs, d ++ [x]) := by
  cases fuel with
  | zero => omega
  | succ n =>
    have h1 : cap ≤ (x :: xs).length := le_of_eq hq.symm
    simp only [evictLoopAsync, if_pos h1]
    exact evictLoopAsync_lt cap sA n xs (d ++ [x]) (by simp at hq ⊢; omega) (by omega)

theorem evictLoopAsync_done_spec (cap : Nat) (sA : Bool) :
    ∀ (fuel : Nat) (q d q1 d1 : List α),
      evictLoopAsync cap sA fuel q d = some (q1, d1) →
      ∃ k, k ≤ q.length ∧ d1 = d ++ q.take k ∧ q1 = q.drop k := by
  intro fuel
  induction fuel with
  | zero => intro q d q1 d1 h; simp [evictLoopAsync] at h
  | succ n ih =>
    intro q d q1 d1 h
    by_cases hc : cap ≤ q.length
    · cases q with
      | nil =>
        have hc0 : cap = 0 := Nat.le_zero.mp (by simpa using hc)
        subst hc0
        cases sA with
        | false =>
          simp only [evictLoopAsync, Nat.le_refl, if_pos, List.length_nil,
            Bool.false_eq_true, if_false] at h
          obtain ⟨k, hk, hd, hq⟩ := ih [] d q1 d1 h
          exact ⟨0, by simp, by simpa using hd, by simpa using hq⟩
        | true => simp [evictLoopAsync] at h
      | cons x xs =>
        simp only [evictLoopAsync, if_pos hc] at h
        obtain ⟨k, hk, hd, hq⟩ := ih xs (d ++ [x]) q1 d1 h
        refine ⟨k + 1, by simp; omega, ?_, ?_⟩
        · simpa [List.append_assoc] using hd
        · simpa using hq
    · simp only [evictLoopAsync, if_neg hc] at h
      obtain ⟨rfl, rfl⟩ : q = q1 ∧ d = d1 := by
        cases h; exact ⟨rfl, rfl⟩
      exact ⟨0, by simp, by simp, by simp⟩

/-! ## Per-call characterizations of the send operations -/

theorem send_overwrite_under (c : Nat) (sA : Bool) (fuel : Nat) (q : List α) (v : α)
    (hq : q.length < c) (hf : 1 ≤ fuel) :
    send_overwrite (some c) sA true fuel q v = some (.ok none, q ++ [v]) := by
  simp [send_overwrite, sendBounded, evictLoop_lt c sA fuel q [] hq hf, evictReport]

theorem send_overwrite_at_cap (c : Nat) (sA : Bool) (fuel : Nat) (x : α) (xs : List α) (v : α)
    (hq : (x :: xs).length = c) (hf : 2 ≤ fuel) :
    send_overwrite (some c) sA true fuel (x :: xs) v = some (.ok (some [x]), xs ++ [v]) := by
  simp [send_overwrite, sendBounded, evictLoop_pop c sA fuel x xs [] hq hf, evictReport]

theorem send_overwrite_async_under (c : Nat) (sA : Bool) (fuel : Nat) (q : List α) (v : α)
    (hq : q.length < c) (hf : 1 ≤ fuel) :
    send_overwrite_async (some c) sA true fuel q v = some (.ok none, q ++ [v]) := by
  simp [send_overwrite_async, sendBoundedAsync, evictLoopAsync_lt c sA fuel q [] hq hf,
    evictReport]

theorem sendSeq_spec (c : Nat) (hc : 1 ≤ c) :
    ∀ (vs q : List α), q.length ≤ c →
      sendSeq c q vs
        = some ((q ++ vs).drop (q.length + vs.length - c), q.length + vs.length - c) := by
  intro vs
  induction vs with
  | nil =>
    intro q hq
    have h0 : q.length - c = 0 := by omega
    simp [sendSeq, h0]
  | cons v vs ih =>
    intro q hq
    rcases lt_or_eq_of_le hq with hlt | heq
    · have hsend := send_overwrite_under c true (q.length + 2) q v hlt (by omega)
      have ih' := ih (q ++ [v]) (by simp; omega)
      simp only [sendSeq, hsend, ih', Option.getD_none, List.length_nil, Nat.zero_add]
      have harith : q.length + 1 + vs.length - c = q.length + (vs.length + 1) - c := by omega
      simp [List.append_assoc, harith]
    · cases q with
      | nil => simp at heq; omega
      | cons x xs =>
        have hxs : xs.length + 1 = c := by simpa using heq
        have hsend := send_overwrite_at_cap c true ((x :: xs).length + 2) x xs v heq
          (by omega)
        have ih' := ih (xs ++ [v]) (by simp; omega)
        simp only [sendSeq, hsend, ih']
        simp [List.append_assoc]
        have h1 : xs.length + 1 + vs.length - c = vs.length := by omega
        have h2 : xs.length + 1 + (vs.length + 1) - c = vs.length + 1 := by omega
        rw [h1, h2]
        exact ⟨rfl, by omega⟩

theorem sendBounded_ok_some (c : Nat) (sA rA : Bool) (fuel : Nat) (q q1 r : List α) (v : α)
    (h : sendBounded c sA rA fuel q v = some (.ok (some r), q1)) :
    ∃ qd, evictLoop c sA fuel q [] = some (.done qd r) ∧ r ≠ [] ∧ q1 = qd ++ [v] := by
  unfold sendBounded at h
  cases hE : evictLoop c sA fuel q ([] : List α) with
  | none => rw [hE] at h; cases h
  | some out =>
    rw [hE] at h
    cases out with
    | disc qd dd => simp at h
    | done qd dd =>
      cases rA with
      | false => simp at h
      | true =>
        cases dd with
        | nil => simp [evictReport] at h
        | cons y ys =>
          simp [evictReport] at h
          obtain ⟨hr, hq1⟩ := h
          subst hr
          subst hq1
          exact ⟨qd, rfl, by simp, rfl⟩

theorem sendBoundedAsync_ok_some (c : Nat) (sA rA : Bool) (fuel : Nat) (q q1 r : List α) (v : α)
    (h : sendBoundedAsync c sA rA fuel q v = some (.ok (some r), q1)) :
    ∃ qd, evictLoopAsync c sA fuel q [] = some (qd, r) ∧ r ≠ [] ∧ q1 = qd ++ [v] := by
  unfold sendBoundedAsync at h
  cases hE : evictLoopAsync c sA fuel q ([] : List α) with
  | none => rw [hE] at h; cases h
  | some out =>
    rw [hE] at h
    obtain ⟨qd, dd⟩ := out
    cases rA with
    | false => simp at h
    | true =>
      cases dd with
      | nil => simp [evictReport] at h
      | cons y ys =>
        simp [evictReport] at h
        obtain ⟨hr, hq1⟩ := h
        subst hr
        subst hq1
        exact ⟨qd, rfl, by simp, rfl⟩

/-! ## Claim theorems -/

/-- C1: for every capacity C ≥ 1 and every sequence of N > C sequential
`send_overwrite` calls on a freshly constructed queue (empty, both sides
connected, no concurrent consumer), after all calls the queue contains
exactly the last C sent values in their original send order
(`vs.drop (vs.length - C)`), and the total number of values reported across
all the calls' eviction lists equals N − C. -/
theorem send_overwrite_seq_window (c : Nat) (vs : List α)
    (hc : 1 ≤ c) (hlen : c < vs.length) :
    sendSeq c ([] : List α) vs = some (vs.drop (vs.length - c), vs.length - c) := by
  have h := sendSeq_spec c hc vs [] (by simp)
  simpa using h

/-- Witness for C1: capacity 2, sends 1,2,3,4,5; the queue ends as [4, 5]
(the last 2 values in send order) and 3 = 5 − 2 values were reported evicted. -/
theorem send_overwrite_seq_window_w :
    sendSeq 2 ([] : List Nat) [1, 2, 3, 4, 5] = some ([4, 5], 3) :=
  (send_overwrite_seq_window 2 [1, 2, 3, 4, 5] (by norm_num) (by norm_num)).trans (by rfl)

/-- C2: every successful `send_overwrite` or `send_overwrite_async` call that
returns a non-empty eviction list returns a list that is a contiguous
front segment (`q.take k`) of the pre-call queue, hence lists the evicted
values in the order they were originally enqueued, oldest first; the final
queue is `q.drop k ++ [v]`, so the pushed occurrence of the sent value is
never part of its own triggering eviction — in particular, if the sent value
was not already queued it does not appear in the eviction list. -/
theorem send_overwrite_evictions_fifo (cap : Option Nat) (sA rA : Bool) (fuel : Nat)
    (q : List α) (v : α) (r q1 r2 q2 : List α) :
    (send_overwrite cap sA rA fuel q v = some (.ok (some r), q1) →
      (∃ k, k ≤ q.length ∧ r = q.take k ∧ q1 = q.drop k ++ [v]) ∧ (v ∉ q → v ∉ r))
    ∧ (send_overwrite_async cap sA rA fuel q v = some (.ok (some r2), q2) →
      (∃ k, k ≤ q.length ∧ r2 = q.take k ∧ q2 = q.drop k ++ [v]) ∧ (v ∉ q → v ∉ r2)) := by
  constructor
  · intro h
    cases cap with
    | none =>
      exfalso
      cases rA <;> simp [send_overwrite, sendUnbounded] at h
    | some c =>
      rw [send_overwrite] at h
      obtain ⟨qd, hE, hr, hq1⟩ := sendBounded_ok_some c sA rA fuel q q1 r v h
      obtain ⟨k, hk, hd, hqd⟩ := evictLoop_done_spec c sA fuel q [] qd r hE
      refine ⟨⟨k, hk, by simpa using hd, by rw [hq1, hqd]⟩, ?_⟩
      intro hv hvr
      exact hv (List.take_subset k q (by simpa [hd] using hvr))
  · intro h
    cases cap with
    | none =>
      exfalso
      cases rA <;> simp [send_overwrite_async, sendUnbounded] at h
    | some c =>
      rw [send_overwrite_async] at h
      obtain ⟨qd, hE, hr, hq2⟩ := sendBoundedAsync_ok_some c sA rA fuel q q2 r2 v h
      obtain ⟨k, hk, hd, hqd⟩ := evictLoopAsync_done_spec c sA fuel q [] qd r2 hE
      refine ⟨⟨k, hk, by simpa using hd, by rw [hq2, hqd]⟩, ?_⟩
      intro hv hvr
      exact hv (List.take_subset k q (by simpa [hd] using hvr))

/-- Witness for C2: capacity 1, queue [5], send 7: both variants return the
eviction list [5] and the queue [7]; the conclusions hold at k = 1. -/
theorem send_overwrite_evictions_fifo_w :
    ((∃ k, k ≤ ([5] : List Nat).length ∧ [5] = List.take k [5] ∧
        [7] = List.drop k [5] ++ [7]) ∧ ((7 : Nat) ∉ ([5] : List Nat) → 7 ∉ ([5] : List Nat)))
    ∧ ((∃ k, k ≤ ([5] : List Nat).length ∧ [5] = List.take k [5] ∧
        [7] = List.drop k [5] ++ [7]) ∧ ((7 : Nat) ∉ ([5] : List Nat) → 7 ∉ ([5] : List Nat))) :=
  ⟨(send_overwrite_evictions_fifo (some 1) true true 3 [5] 7 [5] [7] [5] [7]).1 rfl,
   (send_overwrite_evictions_fifo (some 1) true true 3 [5] 7 [5] [7] [5] [7]).2 rfl⟩

/-- C3 (code bug): the claim says every `send_overwrite` call on a queue of
capacity 0 completes, evicting the immediately preceding value. The code
instead never completes: at capacity 0 the loop condition `len() >= 0` always
holds and `try_recv` on the (always empty) rendezvous queue keeps returning
`Empty`, so the loop spins forever — for every fuel the fueled interpreter
reports non-termination on the connected channel (both sides alive). -/
theorem send_overwrite_cap_zero_diverges (v : α) (fuel : Nat) :
    send_overwrite (some 0) true true fuel ([] : List α) v = none := by
  simp [send_overwrite, sendBounded, evictLoop_zero_alive fuel ([] : List α)]

/-- C4: if the internal receiver's non-blocking pop reports `Disconnected`
during the eviction loop of the synchronous `send_overwrite`, the whole
operation aborts, returns `Err(SendError(value))` carrying the caller's
original value unchanged, and the value is not pushed into the queue. -/
theorem send_overwrite_disc_aborts (c : Nat) (sA rA : Bool) (fuel : Nat)
    (q qr dr : List α) (v : α)
    (h : evictLoop c sA fuel q ([] : List α) = some (.disc qr dr)) :
    send_overwrite (some c) sA rA fuel q v = some (.err v, qr) ∧ v ∉ qr := by
  have hnil : qr = [] := evictLoop_disc_nil c sA fuel q [] qr dr h
  subst hnil
  refine ⟨?_, by simp⟩
  simp [send_overwrite, sendBounded, h]

/-- Witness for C4: capacity 0, empty queue, sender side dead: `try_recv`
reports `Disconnected` on the first iteration and the call returns
`Err(SendError(7))` without pushing 7. -/
theorem send_overwrite_disc_aborts_w :
    send_overwrite (some 0) false true 1 ([] : List Nat) 7 = some (.err 7, []) ∧
      (7 : Nat) ∉ ([] : List Nat) :=
  send_overwrite_disc_aborts 0 false true 1 [] [] [] 7 rfl

/-- C5 counterexample: at the one concrete situation in which the suspending
pop fails because the peer is disconnected — capacity 0, empty queue, sender
side dead — `send_overwrite_async` never completes, for any fuel: the
eviction loop is not exited and the final push is never attempted, refuting
the claim that the loop is exited and the push still attempted. -/
theorem send_overwrite_async_disc_cex : sendAsyncDisconnectedNeverCompletes := by
  intro fuel
  simp [send_overwrite_async, sendBoundedAsync, evictLoopAsync_zero_dead fuel ([] : List Nat)]

/-- C5 (amended): in `send_overwrite_async` a failing suspending pop (peer
disconnected) is not surfaced as an error and appends nothing to the eviction
list; the loop merely re-checks the occupancy condition. A failing pop only
occurs when the queue is empty with occupancy ≥ capacity, i.e. at capacity 0,
where the re-check always succeeds again: the loop keeps running, the final
push is never attempted, and the call never completes (for every fuel and
every starting queue, the result is non-termination, not an error). -/
theorem send_overwrite_async_disc_spins (rA : Bool) (fuel : Nat) (q : List α) (v : α) :
    send_overwrite_async (some 0) false rA fuel q v = none := by
  simp [send_overwrite_async, sendBoundedAsync, evictLoopAsync_zero_dead fuel q]

/-- C6 counterexample: with all external consumer handles dropped
(`extReceivers = 0`) and one live `OverwriteSender`, the claim says a
subsequent `send_overwrite` fails with `Disconnected` and returns the
undelivered value 7; instead the call succeeds (`Ok(None)`, 7 pushed),
because the sender's internal receiver clone keeps the channel connected.
`ok none` is not the `err 7` the claim requires. -/
theorem send_overwrite_no_receivers_cex :
    send_overwrite_h ⟨0, 1⟩ (some 1) 3 ([] : List Nat) 7 = some (.ok none, [7]) ∧
      (SendResult.ok none : SendResult Nat) ≠ .err 7 :=
  ⟨rfl, by decide⟩

/-- C6 (amended): if all external consumer-side handles of a queue are
dropped, a subsequent `send_overwrite` call does not fail with
`Disconnected`: the sender's own internal receiver clone keeps the channel
connected, so the call succeeds and the value is pushed (the queue ends with
the sent value). -/
theorem send_overwrite_no_receivers_succeeds (s c fuel : Nat) (q : List α) (v : α)
    (hs : 1 ≤ s) (hc : 1 ≤ c) (hq : q.length ≤ c) (hf : q.length + 2 ≤ fuel) :
    ∃ r q0, send_overwrite_h ⟨0, s⟩ (some c) fuel q v = some (.ok r, q0 ++ [v]) := by
  have hsA : senderSideAlive ⟨0, s⟩ = true := by simp [senderSideAlive]; omega
  have hrA : receiverSideAlive ⟨0, s⟩ = true := by simp [receiverSideAlive]; omega
  rw [send_overwrite_h, hsA, hrA]
  rcases lt_or_eq_of_le hq with hlt | heq
  · exact ⟨none, q, by rw [send_overwrite_under c true fuel q v hlt (by omega)]⟩
  · cases q with
    | nil => exfalso; simp at heq; omega
    | cons x xs =>
      exact ⟨some [x], xs, by rw [send_overwrite_at_cap c true fuel x xs v heq (by omega)]⟩

/-- Witness for C6 (amended): one live sender, no external receivers,
capacity 1, queue [5]: the send succeeds and the queue ends with 7. -/
theorem send_overwrite_no_receivers_succeeds_w :
    ∃ r q0, send_overwrite_h ⟨0, 1⟩ (some 1) 3 ([5] : List Nat) 7 = some (.ok r, q0 ++ [7]) :=
  send_overwrite_no_receivers_succeeds 1 1 3 [5] 7 (by decide) (by decide) (by decide)
    (by decide)

/-- C7: if every handle except the sender's own clones is dropped before a
`send_overwrite` call (`extReceivers = 0`, `s` live sender clones), the call
succeeds, because the producer's internal receiver keeps the queue alive; the
resulting queue is `q.drop k ++ [v]` with the evicted values `q.take k`
removed, so receivers obtained afterward — which can only pop what is still
in the queue — cannot receive values already evicted. -/
theorem send_overwrite_internal_receiver_alive (s c fuel : Nat) (q : List α) (v : α)
    (hs : 1 ≤ s) (hc : 1 ≤ c) (hq : q.length ≤ c) (hf : q.length + 2 ≤ fuel) :
    ∃ k, k ≤ q.length ∧
      send_overwrite_h ⟨0, s⟩ (some c) fuel q v
        = some (.ok (evictReport (q.take k)), q.drop k ++ [v]) := by
  have hsA : senderSideAlive ⟨0, s⟩ = true := by simp [senderSideAlive]; omega
  have hrA : receiverSideAlive ⟨0, s⟩ = true := by simp [receiverSideAlive]; omega
  rw [send_overwrite_h, hsA, hrA]
  rcases lt_or_eq_of_le hq with hlt | heq
  · refine ⟨0, by omega, ?_⟩
    rw [send_overwrite_under c true fuel q v hlt (by omega)]
    simp [evictReport]
  · cases q with
    | nil => exfalso; simp at heq; omega
    | cons x xs =>
      refine ⟨1, by simp, ?_⟩
      rw [send_overwrite_at_cap c true fuel x xs v heq (by omega)]
      simp [evictReport]

/-- Witness for C7: two live sender clones, no external receivers,
capacity 1, queue [3], send 9: succeeds with k = 1 (3 evicted, queue [9]). -/
theorem send_overwrite_internal_receiver_alive_w :
    ∃ k, k ≤ ([3] : List Nat).length ∧
      send_overwrite_h ⟨0, 2⟩ (some 1) 3 ([3] : List Nat) 9
        = some (.ok (evictReport (List.take k [3])), List.drop k [3] ++ [9]) :=
  send_overwrite_internal_receiver_alive 2 1 3 [3] 9 (by decide) (by decide) (by decide)
    (by decide)

/-- C8: a `send_overwrite` or `send_overwrite_async` call made while the
occupancy is strictly below the capacity reports no eviction (`Ok(None)`) and
pushes the value; a send to an unbounded queue does the same regardless of
occupancy, for both variants. -/
theorem send_overwrite_under_cap_no_eviction (sA : Bool) (c fuel : Nat) (q : List α) (v : α)
    (hq : q.length < c) (hf : 1 ≤ fuel) :
    send_overwrite (some c) sA true fuel q v = some (.ok none, q ++ [v])
    ∧ send_overwrite_async (some c) sA true fuel q v = some (.ok none, q ++ [v])
    ∧ send_overwrite none sA true fuel q v = some (.ok none, q ++ [v])
    ∧ send_overwrite_async none sA true fuel q v = some (.ok none, q ++ [v]) := by
  refine ⟨send_overwrite_under c sA fuel q v hq hf,
    send_overwrite_async_under c sA fuel q v hq hf, ?_, ?_⟩
  · simp [send_overwrite, sendUnbounded]
  · simp [send_overwrite_async, sendUnbounded]

/-- Witness for C8: capacity 3, queue [1], send 2 with fuel 1: all four
conclusions at a concrete input. -/
theorem send_overwrite_under_cap_no_eviction_w :
    send_overwrite (some 3) true true 1 ([1] : List Nat) 2 = some (.ok none, [1, 2])
    ∧ send_overwrite_async (some 3) true true 1 ([1] : List Nat) 2 = some (.ok none, [1, 2])
    ∧ send_overwrite none true true 1 ([1] : List Nat) 2 = some (.ok none, [1, 2])
    ∧ send_overwrite_async none true true 1 ([1] : List Nat) 2 = some (.ok none, [1, 2]) :=
  send_overwrite_under_cap_no_eviction true 3 1 [1] 2 (by decide) (by decide)

/-- C9: a successful `send_overwrite` or `send_overwrite_async` call returns
either the no-eviction marker (`None`) or a non-empty list; `Some` of an
empty list is never returned. -/
theorem send_overwrite_report_nonempty (cap : Option Nat) (sA rA : Bool) (fuel : Nat)
    (q : List α) (v : α) (r q1 r2 q2 : List α) :
    (send_overwrite cap sA rA fuel q v = some (.ok (some r), q1) → r ≠ [])
    ∧ (send_overwrite_async cap sA rA fuel q v = some (.ok (some r2), q2) → r2 ≠ []) := by
  constructor
  · intro h
    cases cap with
    | none =>
      exfalso
      cases rA <;> simp [send_overwrite, sendUnbounded] at h
    | some c =>
      rw [send_overwrite] at h
      obtain ⟨qd, hE, hr, hq1⟩ := sendBounded_ok_some c sA rA fuel q q1 r v h
      exact hr
  · intro h
    cases cap with
    | none =>
      exfalso
      cases rA <;> simp [send_overwrite_async, sendUnbounded] at h
    | some c =>
      rw [send_overwrite_async] at h
      obtain ⟨qd, hE, hr, hq2⟩ := sendBoundedAsync_ok_some c sA rA fuel q q2 r2 v h
      exact hr

/-- Witness for C9: capacity 2, queue [4, 6], send 8: both variants return
the eviction list [4], which is non-empty. -/
theorem send_overwrite_report_nonempty_w :
    ([4] : List Nat) ≠ [] ∧ ([4] : List Nat) ≠ [] :=
  ⟨(send_overwrite_report_nonempty (some 2) true true 4 [4, 6] 8 [4] [6, 8] [4] [6, 8]).1 rfl,
   (send_overwrite_report_nonempty (some 2) true true 4 [4, 6] 8 [4] [6, 8] [4] [6, 8]).2 rfl⟩

/-- C10: a sender produced by `bounded_overwrite(cap)` is backed by a channel
whose `capacity()` query returns `Some(cap)`, so on such a sender both
`send_overwrite` and `send_overwrite_async` always take the bounded branch:
the unbounded (skip-eviction-check) branch is unreachable. -/
theorem bounded_overwrite_capacity_some (c : Nat) (sA rA : Bool) (fuel : Nat)
    (q : List α) (v : α) :
    bounded_overwrite c = some c
    ∧ send_overwrite (bounded_overwrite c) sA rA fuel q v = sendBounded c sA rA fuel q v
    ∧ send_overwrite_async (bounded_overwrite c) sA rA fuel q v
        = sendBoundedAsync c sA rA fuel q v :=
  ⟨rfl, rfl, rfl⟩
